import Mathlib

/-!
Verification development for the bounded-context conversation core
(history masking, ephemeral cleanup, window builder, round-robin
scheduler, query lifecycle, constructor validation).

JavaScript numbers are modelled as Int where signs matter and as Nat
for lengths and indices; arrays become lists; `undefined`-able fields
become Option; records and Maps become association lists kept in
insertion order, which is the iteration order of the original code.
Array.prototype.sort is stable, and is modelled by the stable
List.insertionSort with the relation "comparator result is nonpositive".
-/

/-- A message in a conversation (interface Message in Conversation.ts).
Only the length of the embeddings and tokens arrays is ever observed by
the algorithms, so the numeric element type is modelled as Int. -/
structure Message where
  actor : String
  text : String
  feedback : Int × Int := (0, 0)
  tokens : Option (List Int) := none
  embeddings : Option (List Int) := none
  ephemeral : Option Bool := none
deriving Repr, DecidableEq

/-- The length heuristic of util.ts: Math.ceil(text.split(" ").length * 0.75).
The float product n * 0.75 is exact, so the result is the ceiling of 3n/4,
computed here as (3n + 3) / 4 in natural division. -/
def heuristic (text : String) : Nat :=
  (3 * (text.splitOn " ").length + 3) / 4

/-- The cost of a message in mask (util.ts line 45): the embeddings length
when the embeddings field is present (an empty array is truthy in
JavaScript and yields cost 0), else the heuristic on the text. -/
def messageCost (m : Message) : Nat :=
  match m.embeddings with
  | some e => e.length
  | none => heuristic m.text

/-- The loop of mask (util.ts lines 43-55) walks the messages newest first;
this helper receives the reversed message list, the running total and the
window, and stops at the first message that would push the total over the
window, exactly like the break in the source. -/
def maskAux : List Message → Int → Int → List Message
  | [], _, _ => []
  | m :: rest, totalLength, window =>
    let length : Int := messageCost m
    if totalLength + length > window then []
    else m :: maskAux rest (totalLength + length) window

/-- mask from util.ts: walk the messages from the last index down,
accumulate the accepted ones (newest first), then reverse to restore
chronological order. -/
def mask (messages : List Message) (window : Int) : List Message :=
  (maskAux messages.reverse 0 window).reverse

/-- Greedy budget walk in the words of the spec (section 4.4): given the
newest-first message list, accept a message when its cost fits in the
remaining budget and recurse on the budget minus that cost, stopping at
the first overflow. -/
def greedyMaskPrefix : List Message → Int → List Message
  | [], _ => []
  | m :: rest, budget =>
    if (messageCost m : Int) > budget then []
    else m :: greedyMaskPrefix rest (budget - messageCost m)

/-- The index-collection pass of cleanEphemeral (ConversationHistory,
lines 96-104): the reduce collects, in increasing order, the index of
every message whose ephemeral flag is truthy. -/
def ephemeralIndexes (messages : List Message) : List Nat :=
  (messages.enum.filter (fun p => p.2.ephemeral.getD false)).map Prod.fst

/-- cleanEphemeral from ConversationHistory (lines 95-111): collect the
indexes of the ephemeral messages against the original list, then splice
each collected index out of the live list one by one. splice(i, 1) on the
current list is eraseIdx i (a no-op when i is out of range). The source
guard "if (messages.length)" only skips an empty loop and is dropped. -/
def cleanEphemeral (messages : List Message) : List Message :=
  (ephemeralIndexes messages).foldl (fun ms i => ms.eraseIdx i) messages

/-- getMessagesFor from ConversationHistory (lines 53-59): filter the
history to the messages of the given actor, then build Map entries
[index, message] where index is the position in the filtered list (the
second argument of Array.prototype.map). The Map is modelled as the
association list of its entries in insertion order. -/
def getMessagesFor (messages : List Message) (actor : String) : List (Nat × Message) :=
  (messages.filter (fun m => m.actor == actor)).enum

/-- The state of a RoundRobinScheduler (Scheduler.ts): the participant
list of the bound conversation in construction order, and the cursor
lastIndex, which starts at 0. -/
structure RoundRobinScheduler (α : Type) where
  actors : List α
  lastIndex : Nat := 0
deriving Repr, DecidableEq

/-- getNextSpeaker of RoundRobinScheduler (Scheduler.ts lines 44-47):
return actors[lastIndex % actors.length] and post-increment lastIndex.
An out-of-range read (empty participant list) yields none, matching the
undefined of the source. -/
def getNextSpeaker {α : Type} (s : RoundRobinScheduler α) :
    Option α × RoundRobinScheduler α :=
  (s.actors.get? (s.lastIndex % s.actors.length),
    { s with lastIndex := s.lastIndex + 1 })

/-- Run n consecutive getNextSpeaker calls, collecting the returned
speakers in call order together with the final scheduler state. -/
def runScheduler {α : Type} (s : RoundRobinScheduler α) : Nat → List (Option α) × RoundRobinScheduler α
  | 0 => ([], s)
  | n + 1 =>
    let step := getNextSpeaker s
    let rest := runScheduler step.2 n
    (step.1 :: rest.1, rest.2)

/-- The window argument of the Conversation constructor: a flat number or
an object with a max field (ContextWindow). -/
inductive WindowArg where
  | num : Int → WindowArg
  | obj : Int → WindowArg
deriving Repr, DecidableEq

/-- The window-validation clause of the Conversation constructor
(Conversation.ts lines 168-177), verbatim: when a window is supplied,
valid is set to "the window is a negative number, or an object whose max
is negative"; the constructor throws when valid is FALSE, and otherwise
records the window. -/
def conversationWindowInit : Option WindowArg → Except String (Option WindowArg)
  | none => Except.ok none
  | some w =>
    let valid : Bool :=
      match w with
      | WindowArg.num n => n < 0
      | WindowArg.obj m => m < 0
    if !valid then Except.error "The context window must be a positive number."
    else Except.ok (some w)

/-- A message whose cost is exactly 5, via an explicit embeddings array of
length 5, as in the masking example of the spec. -/
def costFiveMessage (a : String) : Message :=
  { actor := a, text := a, embeddings := some [1, 1, 1, 1, 1] }

lemma maskAux_eq_greedy (l : List Message) :
    ∀ (totalLength window : Int),
      maskAux l totalLength window = greedyMaskPrefix l (window - totalLength) := by
  induction l with
  | nil => intro t w; rfl
  | cons m rest ih =>
    intro t w
    show (if t + (messageCost m : Int) > w then []
          else m :: maskAux rest (t + (messageCost m : Int)) w)
        = (if (messageCost m : Int) > w - t then []
          else m :: greedyMaskPrefix rest (w - t - (messageCost m : Int)))
    by_cases hc : (messageCost m : Int) > w - t
    · rw [if_pos (by omega), if_pos hc]
    · have harg : w - (t + (messageCost m : Int)) = w - t - (messageCost m : Int) := by
        omega
      rw [if_neg (by omega), if_neg hc, ih (t + (messageCost m : Int)) w, harg]

/-- C1 counterexample: with three messages of cost 5 each and budget 8,
mask does not return the last two messages, contrary to the claimed
example (their combined cost 10 already exceeds 8). -/
theorem mask_example_budget8_counterexample :
    mask [costFiveMessage "m0", costFiveMessage "m1", costFiveMessage "m2"] 8
      ≠ [costFiveMessage "m1", costFiveMessage "m2"] := by decide

/-- C1 (amended): mask walks the message list newest first, accumulating
each message cost (exact embeddings length when present, else the
heuristic over words), stops at the first message whose cost would push
the running total over the budget, and returns the accepted messages in
chronological order; for messages [m0, m1, m2] with costs [5, 5, 5] and
budget 8 it returns [m2] only. -/
theorem mask_newest_first_greedy :
    (∀ (messages : List Message) (window : Int),
        mask messages window = (greedyMaskPrefix messages.reverse window).reverse) ∧
    mask [costFiveMessage "m0", costFiveMessage "m1", costFiveMessage "m2"] 8
      = [costFiveMessage "m2"] := by
  constructor
  · intro messages window
    unfold mask
    rw [maskAux_eq_greedy messages.reverse 0 window]
    norm_num
  · decide

/-- An ephemeral test message. -/
def ephemeralMessage (a : String) : Message :=
  { actor := a, text := a, ephemeral := some true }

/-- A durable (non-ephemeral) test message. -/
def durableMessage (a : String) : Message :=
  { actor := a, text := a }

/-- C2: cleanEphemeral collects the ephemeral indexes [0, 1] against the
original list but then splices them against the live, already-shifted
list: on [ephemeral A, ephemeral B, durable C] it removes A and C and
returns [B], leaving an ephemeral message in the history and dropping a
durable one. -/
theorem cleanEphemeral_stale_splice_eval :
    cleanEphemeral
        [ephemeralMessage "A", ephemeralMessage "B", durableMessage "C"]
      = [ephemeralMessage "B"] ∧
    (ephemeralMessage "B").ephemeral = some true ∧
    (durableMessage "C").ephemeral = none := by decide

/-- C3: the validation in the Conversation constructor is inverted. It
throws the error "The context window must be a positive number." exactly
for non-negative windows (flat 10, flat 0 and object max 7 here) and
accepts and records a negative window (-5). -/
theorem conversationWindowInit_inverted_eval :
    conversationWindowInit (some (WindowArg.num 10))
      = Except.error "The context window must be a positive number." ∧
    conversationWindowInit (some (WindowArg.obj 7))
      = Except.error "The context window must be a positive number." ∧
    conversationWindowInit (some (WindowArg.num (-5)))
      = Except.ok (some (WindowArg.num (-5))) ∧
    conversationWindowInit (some (WindowArg.num 0))
      = Except.error "The context window must be a positive number." :=
  ⟨rfl, rfl, rfl, rfl⟩

/-- C8 counterexample: in the history [A, B, A] the two messages of
speaker A sit at original indices 0 and 2, but getMessagesFor keys them
by 0 and 1, their positions in the filtered list. -/
theorem getMessagesFor_keys_counterexample :
    (getMessagesFor
        [durableMessage "A", durableMessage "B", ephemeralMessage "A"] "A").map Prod.fst
        = [0, 1] ∧
    (getMessagesFor
        [durableMessage "A", durableMessage "B", ephemeralMessage "A"] "A").map Prod.fst
        ≠ [0, 2] := by decide

/-- C8 (amended): getMessagesFor returns exactly the messages of the
given speaker in history order, and keys them by consecutive positions
0, 1, ... within that filtered subsequence, not by their original index
in the full history. -/
theorem getMessagesFor_characterization (messages : List Message) (actor : String) :
    (getMessagesFor messages actor).map Prod.snd
        = messages.filter (fun m => m.actor == actor) ∧
    (getMessagesFor messages actor).map Prod.fst
        = List.range (messages.filter (fun m => m.actor == actor)).length ∧
    (∀ p ∈ getMessagesFor messages actor, p.2.actor = actor) ∧
    (∀ m ∈ messages, m.actor = actor → m ∈ (getMessagesFor messages actor).map Prod.snd) := by
  simp only [getMessagesFor]
  refine ⟨List.enum_map_snd _, List.enum_map_fst _, ?_, ?_⟩
  · intro p hp
    have hmem : p.2 ∈ (messages.filter (fun m => m.actor == actor)).enum.map Prod.snd :=
      List.mem_map_of_mem Prod.snd hp
    rw [List.enum_map_snd] at hmem
    exact eq_of_beq (List.mem_filter.mp hmem).2
  · intro m hm hact
    rw [List.enum_map_snd]
    exact List.mem_filter.mpr ⟨hm, by simp [hact]⟩

/-- C8 witness: the characterization applied to the concrete history
[A, B, A]. -/
theorem getMessagesFor_characterization_witness :
    (getMessagesFor
        [durableMessage "A", durableMessage "B", ephemeralMessage "A"] "A").map Prod.snd
      = [durableMessage "A", durableMessage "B", ephemeralMessage "A"].filter
          (fun m => m.actor == "A") :=
  (getMessagesFor_characterization
    [durableMessage "A", durableMessage "B", ephemeralMessage "A"] "A").1

lemma runScheduler_state {α : Type} (actors : List α) :
    ∀ (n c : Nat),
      (runScheduler (⟨actors, c⟩ : RoundRobinScheduler α) n).2 = ⟨actors, c + n⟩ := by
  intro n
  induction n with
  | zero => intro c; rfl
  | succ n ih =>
    intro c
    show (runScheduler (⟨actors, c + 1⟩ : RoundRobinScheduler α) n).2 = _
    rw [ih (c + 1)]
    congr 1
    omega

lemma runScheduler_speakers {α : Type} (actors : List α) :
    ∀ (n c : Nat),
      (runScheduler (⟨actors, c⟩ : RoundRobinScheduler α) n).1
        = (List.range n).map (fun i => actors.get? ((c + i) % actors.length)) := by
  intro n
  induction n with
  | zero => intro c; rfl
  | succ n ih =>
    intro c
    have hstep : (runScheduler (⟨actors, c⟩ : RoundRobinScheduler α) (n + 1)).1
        = actors.get? (c % actors.length)
          :: (runScheduler (⟨actors, c + 1⟩ : RoundRobinScheduler α) n).1 := rfl
    rw [hstep, ih (c + 1), List.range_succ_eq_map, List.map_cons, List.map_map]
    have htail : (List.range n).map (fun i => actors.get? ((c + 1 + i) % actors.length))
        = (List.range n).map ((fun i => actors.get? ((c + i) % actors.length)) ∘ Nat.succ) := by
      apply List.map_congr_left
      intro i _
      show actors.get? ((c + 1 + i) % actors.length)
          = actors.get? ((c + (i + 1)) % actors.length)
      have : c + 1 + i = c + (i + 1) := by omega
      rw [this]
    rw [htail]
    have hhead : actors.get? (c % actors.length)
        = actors.get? ((c + 0) % actors.length) := by norm_num
    rw [hhead]

lemma map_range_get? {α : Type} (l : List α) :
    (List.range l.length).map l.get? = l.map some := by
  induction l with
  | nil => rfl
  | cons a t ih =>
    rw [List.length_cons, List.range_succ_eq_map, List.map_cons, List.map_map]
    have htail : (List.range t.length).map ((a :: t).get? ∘ Nat.succ)
        = (List.range t.length).map t.get? := by
      apply List.map_congr_left
      intro i _
      rfl
    rw [htail, ih]
    rfl

/-- C9: for a fresh round-robin scheduler over N participants (N at least
one), the first N calls return the participants once each in construction
order, the call N+1 returns participant 0 again, and the cursor advances
exactly once per call. -/
theorem roundRobin_cycle {α : Type} (actors : List α) (h : 0 < actors.length) :
    (runScheduler (⟨actors, 0⟩ : RoundRobinScheduler α) actors.length).1
        = actors.map some ∧
    (runScheduler (⟨actors, 0⟩ : RoundRobinScheduler α) (actors.length + 1)).1
        = actors.map some ++ [actors.get? 0] ∧
    ∀ k : Nat, (runScheduler (⟨actors, 0⟩ : RoundRobinScheduler α) k).2.lastIndex = k := by
  have hbase : (List.range actors.length).map
      (fun i => actors.get? ((0 + i) % actors.length)) = actors.map some := by
    rw [← map_range_get? actors]
    apply List.map_congr_left
    intro i hi
    rw [List.mem_range] at hi
    rw [Nat.zero_add, Nat.mod_eq_of_lt hi]
  refine ⟨?_, ?_, ?_⟩
  · rw [runScheduler_speakers actors actors.length 0, hbase]
  · rw [runScheduler_speakers actors (actors.length + 1) 0, List.range_succ,
      List.map_append, hbase, List.map_cons, List.map_nil, Nat.zero_add, Nat.mod_self]
  · intro k
    rw [runScheduler_state actors k 0]
    exact Nat.zero_add k

/-- C9 witness: the round-robin property at the concrete participant list
[A, B]: three calls return A, B and then A again. -/
theorem roundRobin_cycle_witness :
    0 < (["A", "B"] : List String).length ∧
    (runScheduler (⟨["A", "B"], 0⟩ : RoundRobinScheduler String) 3).1
      = (["A", "B"] : List String).map some ++ [(["A", "B"] : List String).get? 0] :=
  ⟨by decide, (roundRobin_cycle ["A", "B"] (by decide)).2.1⟩

/-- A structured context entry (interface ActorData in types.ts). The
field sect is not part of ActorData; see IndexedActorData. Numeric array
elements are modelled as Int, embeddings included, since only lengths are
observed. -/
structure ActorData where
  name : String
  type : String
  value : String
  description : Option String := none
  priority : Option Int := none
  tokens : Option (List Int) := none
  embeddings : Option (List Int) := none
  keep : Option Bool := none
deriving Repr, DecidableEq

/-- An entry as flattened by buildWindow (interface IndexedActorData in
util.ts): the spread of the original entry plus index, section and type.
The spread overwrites the original type field with the bucket type key,
so a single type field remains. The section field is named sect because
section is a reserved word in Lean. -/
structure IndexedActorData where
  name : String
  value : String
  description : Option String := none
  priority : Option Int := none
  tokens : Option (List Int) := none
  embeddings : Option (List Int) := none
  keep : Option Bool := none
  sect : String
  type : String
  index : Nat
deriving Repr, DecidableEq

/-- An output entry of buildWindow: the rest-spread that removes the
index, section and type bookkeeping fields (util.ts line 173). -/
structure WindowedData where
  name : String
  value : String
  description : Option String := none
  priority : Option Int := none
  tokens : Option (List Int) := none
  embeddings : Option (List Int) := none
  keep : Option Bool := none
deriving Repr, DecidableEq

/-- The labeled entry collection fed to buildWindow: a record from
section to a Map from type to an entry array, both modelled as
association lists in insertion order. -/
abbrev EntryCollection := List (String × List (String × List ActorData))

/-- The grouped intermediate collection orderedValues of buildWindow. -/
abbrev Grouped := List (String × List (String × List IndexedActorData))

/-- The spread { ...value, index, section, type } of util.ts line 124. -/
def mkIndexed (v : ActorData) (index : Nat) (sect type : String) : IndexedActorData :=
  { name := v.name, value := v.value, description := v.description,
    priority := v.priority, tokens := v.tokens, embeddings := v.embeddings,
    keep := v.keep, sect := sect, type := type, index := index }

/-- The flattening pass of buildWindow (util.ts lines 119-132): every
(section, type, entry) triple in iteration order, each entry copied and
annotated with its within-bucket index, its section and its type. -/
def flattenEntries (input : EntryCollection) : List IndexedActorData :=
  input.flatMap fun st =>
    st.2.flatMap fun tv =>
      tv.2.enum.map fun p => mkIndexed p.2 p.1 st.1 tv.1

/-- The sort comparator of buildWindow (util.ts lines 135-139), verbatim:
keep inequality first (a truthy keep sorts before), then priority
inequality (difference of the priorities, defaulting to 0), then
descending index. Inequality of keep and of priority is JavaScript strict
inequality of the raw optional values. -/
def compareEntries (a b : IndexedActorData) : Int :=
  if a.keep ≠ b.keep then (if a.keep.getD false then -1 else 1)
  else if a.priority ≠ b.priority then b.priority.getD 0 - a.priority.getD 0
  else (b.index : Int) - (a.index : Int)

/-- The stable sort of the flattened entries: Array.prototype.sort is
stable, modelled by insertion sort with the nonpositive-comparator
relation. -/
def sortEntries (l : List IndexedActorData) : List IndexedActorData :=
  List.insertionSort (fun a b => compareEntries a b ≤ 0) l

/-- The cost of an entry in buildWindow (util.ts line 145):
value.tokens?.length ?? heuristic(value.value). An explicit empty token
array has cost 0; a missing one falls back to the heuristic. -/
def entryCost (v : IndexedActorData) : Nat :=
  match v.tokens with
  | some t => t.length
  | none => heuristic v.value

/-- The same cost on a raw collection entry. -/
def actorCost (v : ActorData) : Nat :=
  match v.tokens with
  | some t => t.length
  | none => heuristic v.value

/-- The selection loop of buildWindow (util.ts lines 144-160): walk the
sorted entries accumulating cost, and break out of the whole loop at the
first entry that would push the running total over maxTokens. -/
def selectEntries : List IndexedActorData → Int → Int → List IndexedActorData
  | [], _, _ => []
  | v :: rest, currentTokens, maxTokens =>
    if currentTokens + (entryCost v : Int) > maxTokens then []
    else v :: selectEntries rest (currentTokens + (entryCost v : Int)) maxTokens

/-- Reading a record or Map key, modelled on the association list: the
first entry with the key, if any. -/
def getKey {β : Type} (m : List (String × β)) (k : String) : Option β :=
  match m.find? (fun p => p.1 == k) with
  | some p => some p.2
  | none => none

/-- Writing a record or Map key: an existing key keeps its position, a
new key is appended, which is exactly the JavaScript insertion-order
behavior. -/
def setKey {β : Type} (m : List (String × β)) (k : String) (v : β) : List (String × β) :=
  match m with
  | [] => [(k, v)]
  | p :: rest => if p.1 == k then (k, v) :: rest else p :: setKey rest k v

/-- One step of the output-grouping loop of buildWindow (util.ts lines
150-158): materialize the section record and the type array if missing,
then push the accepted entry at the end of its bucket. -/
def insertGrouped (acc : Grouped) (v : IndexedActorData) : Grouped :=
  setKey acc v.sect
    (setKey ((getKey acc v.sect).getD []) v.type
      ((getKey ((getKey acc v.sect).getD []) v.type).getD [] ++ [v]))

/-- The grouping loop over all accepted entries in selection order. -/
def groupSelected (selected : List IndexedActorData) : Grouped :=
  selected.foldl insertGrouped []

/-- The final per-bucket re-sort by original index (util.ts line 171),
with the stable model of Array.prototype.sort and the comparator
a.index - b.index. -/
def sortByIndex (l : List IndexedActorData) : List IndexedActorData :=
  List.insertionSort (fun a b => a.index ≤ b.index) l

/-- The rest-spread removing index, section and type (util.ts line 173). -/
def strip (v : IndexedActorData) : WindowedData :=
  { name := v.name, value := v.value, description := v.description,
    priority := v.priority, tokens := v.tokens, embeddings := v.embeddings,
    keep := v.keep }

/-- buildWindow up to, but not including, the bookkeeping strip: flatten,
sort, greedily select within maxTokens, group the accepted entries by
(section, type) in first-encounter order, and re-sort every bucket by
original index. -/
def buildWindowIndexed (input : EntryCollection) (maxTokens : Int) : Grouped :=
  let sortedValues := sortEntries (flattenEntries input)
  let selected := selectEntries sortedValues 0 maxTokens
  let ordered := groupSelected selected
  ordered.map fun st => (st.1, st.2.map fun tv => (tv.1, sortByIndex tv.2))

/-- buildWindow from util.ts (lines 112-178): the indexed pipeline above
followed by the strip of the bookkeeping fields. -/
def buildWindow (input : EntryCollection) (maxTokens : Int) :
    List (String × List (String × List WindowedData)) :=
  (buildWindowIndexed input maxTokens).map fun st =>
    (st.1, st.2.map fun tv => (tv.1, tv.2.map strip))

lemma entryCost_mkIndexed (v : ActorData) (i : Nat) (s t : String) :
    entryCost (mkIndexed v i s t) = actorCost v := rfl

lemma mem_flattenEntries {e : IndexedActorData} {input : EntryCollection}
    (he : e ∈ flattenEntries input) :
    ∃ st ∈ input, ∃ tv ∈ st.2, ∃ v ∈ tv.2, ∃ i : Nat, e = mkIndexed v i st.1 tv.1 := by
  simp only [flattenEntries, List.mem_flatMap, List.mem_map] at he
  obtain ⟨st, hst, tv, htv, p, hp, rfl⟩ := he
  have hv : p.2 ∈ tv.2 := by
    have := List.mem_map_of_mem Prod.snd hp
    rwa [List.enum_map_snd] at this
  exact ⟨st, hst, tv, htv, p.2, hv, p.1, rfl⟩

lemma selectEntries_budget0 (l : List IndexedActorData)
    (h : ∀ e ∈ l, 0 < entryCost e) : selectEntries l 0 0 = [] := by
  cases l with
  | nil => rfl
  | cons v rest =>
    have hv := h v (List.mem_cons_self v rest)
    show (if (0 : Int) + (entryCost v : Int) > 0 then []
          else v :: selectEntries rest ((0 : Int) + (entryCost v : Int)) 0) = []
    rw [if_pos (by omega)]

/-- An entry carrying an explicit empty token array: its estimated cost
is 0, so the budget check 0 + 0 > 0 fails and buildWindow accepts it even
with budget 0. -/
def zeroCostEntry : ActorData :=
  { name := "Z", type := "t", value := "some words here", tokens := some ([] : List Int) }

/-- C4 counterexample: with budget 0 and a single entry whose token list
is explicitly empty, buildWindow returns a non-empty result, contrary to
the claim that budget 0 yields an empty result regardless of token
lists. -/
theorem buildWindow_budget0_counterexample :
    buildWindow [("context", [("t", [zeroCostEntry])])] 0 ≠ [] := by decide

/-- C4 (amended): buildWindow on an empty collection returns an empty
result for every budget, and with budget 0 it returns an empty result
provided every entry has positive estimated cost. The proviso is
necessary: an entry with an explicit empty token list has cost 0 and is
retained even at budget 0 (the heuristic itself is always positive, so
only explicit token lists can produce zero-cost entries). -/
theorem buildWindow_empty_and_budget0 :
    (∀ b : Int, buildWindow [] b = []) ∧
    ∀ input : EntryCollection,
      (∀ st ∈ input, ∀ tv ∈ st.2, ∀ e ∈ tv.2, 0 < actorCost e) →
      buildWindow input 0 = [] := by
  constructor
  · intro b; rfl
  · intro input h
    have hflat : ∀ e ∈ flattenEntries input, 0 < entryCost e := by
      intro e he
      obtain ⟨st, hst, tv, htv, v, hv, i, rfl⟩ := mem_flattenEntries he
      rw [entryCost_mkIndexed]
      exact h st hst tv htv v hv
    have hsorted : ∀ e ∈ sortEntries (flattenEntries input), 0 < entryCost e := by
      intro e he
      unfold sortEntries at he
      exact hflat e ((List.perm_insertionSort _ _).mem_iff.mp he)
    have hsel : selectEntries (sortEntries (flattenEntries input)) 0 0 = [] :=
      selectEntries_budget0 _ hsorted
    simp only [buildWindow, buildWindowIndexed]
    rw [hsel]
    rfl

/-- An entry with an explicit one-token list: its estimated cost is 1. -/
def positiveCostEntry : ActorData :=
  { name := "P", type := "t", value := "hello", tokens := some [7] }

/-- C4 witness: the amended claim applied to the empty collection at
budget 5 and to a concrete all-positive-cost collection at budget 0. -/
theorem buildWindow_empty_and_budget0_witness :
    buildWindow [] 5 = [] ∧
    buildWindow [("context", [("t", [positiveCostEntry])])] 0 = [] :=
  ⟨buildWindow_empty_and_budget0.1 5,
    buildWindow_empty_and_budget0.2 [("context", [("t", [positiveCostEntry])])] (by decide)⟩

/-- Greedy budget walk over the sorted entries in the words of the spec
(section 4.3 step 3): accept an entry when its cost still fits in the
remaining budget, recurse on the reduced budget, stop entirely at the
first overflow. -/
def greedyWindowPrefix : List IndexedActorData → Int → List IndexedActorData
  | [], _ => []
  | v :: rest, budget =>
    if (entryCost v : Int) > budget then []
    else v :: greedyWindowPrefix rest (budget - entryCost v)

lemma selectEntries_eq_greedy (l : List IndexedActorData) :
    ∀ c m : Int, selectEntries l c m = greedyWindowPrefix l (m - c) := by
  induction l with
  | nil => intro c m; rfl
  | cons v rest ih =>
    intro c m
    show (if c + (entryCost v : Int) > m then []
          else v :: selectEntries rest (c + (entryCost v : Int)) m)
        = (if (entryCost v : Int) > m - c then []
          else v :: greedyWindowPrefix rest (m - c - (entryCost v : Int)))
    by_cases hc : (entryCost v : Int) > m - c
    · rw [if_pos (by omega), if_pos hc]
    · have harg : m - (c + (entryCost v : Int)) = m - c - (entryCost v : Int) := by omega
      rw [if_neg (by omega), if_neg hc, ih (c + (entryCost v : Int)) m, harg]

lemma selectEntries_sum (l : List IndexedActorData) :
    ∀ c m : Int, c ≤ m →
      c + ((selectEntries l c m).map (fun v => (entryCost v : Int))).sum ≤ m := by
  induction l with
  | nil => intro c m h; simpa [selectEntries] using h
  | cons v rest ih =>
    intro c m h
    show c + ((if c + (entryCost v : Int) > m then []
          else v :: selectEntries rest (c + (entryCost v : Int)) m).map
            (fun w => (entryCost w : Int))).sum ≤ m
    by_cases hc : c + (entryCost v : Int) > m
    · rw [if_pos hc]; simpa using h
    · rw [if_neg hc]
      have hrec := ih (c + (entryCost v : Int)) m (by omega)
      simp only [List.map_cons, List.sum_cons]
      omega

/-- The concatenation of all buckets of a type map, in order. -/
def flatTypes (types : List (String × List IndexedActorData)) : List IndexedActorData :=
  types.flatMap fun tv => tv.2

/-- The concatenation of all entries of a grouped collection, in order. -/
def flatGrouped (g : Grouped) : List IndexedActorData :=
  g.flatMap fun st => flatTypes st.2

lemma coe_append {γ : Type} (a b : List γ) :
    ((a ++ b : List γ) : Multiset γ) = ↑a + ↑b := by simp

lemma coe_cons_mset {γ : Type} (x : γ) (l : List γ) :
    ((x :: l : List γ) : Multiset γ) = x ::ₘ ↑l := by simp

lemma getKey_cons {β : Type} (p : String × β) (rest : List (String × β)) (k : String) :
    getKey (p :: rest) k = if p.1 == k then some p.2 else getKey rest k := by
  by_cases h : p.1 == k <;> simp [getKey, List.find?_cons, h]

lemma getKey_mem {β : Type} {m : List (String × β)} {k : String} {b : β}
    (h : getKey m k = some b) : (k, b) ∈ m := by
  induction m with
  | nil => exact absurd h (by simp [getKey])
  | cons p rest ih =>
    rw [getKey_cons] at h
    by_cases hpk : p.1 == k
    · rw [if_pos hpk] at h
      have h2 : p.2 = b := by injection h
      have h1 : p.1 = k := by simpa using hpk
      have : p = (k, b) := by cases p; simp_all
      rw [← this]
      exact List.mem_cons_self p rest
    · rw [if_neg hpk] at h
      exact List.mem_cons_of_mem p (ih h)

lemma setKey_flat_none {β γ : Type} (f : β → List γ) :
    ∀ (m : List (String × β)) (k : String) (v : β),
      getKey m k = none →
      (setKey m k v).flatMap (fun p => f p.2) = m.flatMap (fun p => f p.2) ++ f v := by
  intro m
  induction m with
  | nil => intro k v _; simp [setKey]
  | cons p rest ih =>
    intro k v h
    rw [getKey_cons] at h
    by_cases hpk : p.1 == k
    · rw [if_pos hpk] at h; exact absurd h (by simp)
    · rw [if_neg hpk] at h
      simp only [setKey, if_neg hpk, List.flatMap_cons]
      rw [ih k v h, List.append_assoc]

lemma setKey_flat_some {β γ : Type} (f : β → List γ) :
    ∀ (m : List (String × β)) (k : String) (v old : β),
      getKey m k = some old →
      (↑((setKey m k v).flatMap (fun p => f p.2)) : Multiset γ) + ↑(f old)
        = ↑(m.flatMap (fun p => f p.2)) + ↑(f v) := by
  intro m
  induction m with
  | nil => intro k v old h; exact absurd h (by simp [getKey])
  | cons p rest ih =>
    intro k v old h
    rw [getKey_cons] at h
    by_cases hpk : p.1 == k
    · rw [if_pos hpk] at h
      have hold : p.2 = old := by injection h
      subst hold
      simp only [setKey, if_pos hpk, List.flatMap_cons]
      rw [coe_append, coe_append]
      abel
    · rw [if_neg hpk] at h
      simp only [setKey, if_neg hpk, List.flatMap_cons]
      rw [coe_append, coe_append, add_assoc, add_assoc, ih k v old h]

lemma insertGrouped_flat (acc : Grouped) (v : IndexedActorData) :
    (↑(flatGrouped (insertGrouped acc v)) : Multiset IndexedActorData)
      = v ::ₘ ↑(flatGrouped acc) := by
  unfold insertGrouped
  cases hA : getKey acc v.sect with
  | none =>
    simp only [hA, Option.getD_none]
    have hInner : setKey ([] : List (String × List IndexedActorData)) v.type
        (((getKey ([] : List (String × List IndexedActorData)) v.type).getD []) ++ [v])
        = [(v.type, [v])] := by simp [setKey, getKey]
    rw [hInner]
    have hOuter : flatGrouped (setKey acc v.sect [(v.type, [v])])
        = flatGrouped acc ++ flatTypes [(v.type, [v])] :=
      setKey_flat_none (fun types => flatTypes types) acc v.sect [(v.type, [v])] hA
    rw [hOuter]
    have hsingle : flatTypes [(v.type, [v])] = [v] := by simp [flatTypes]
    rw [hsingle, coe_append]
    have : (↑([v] : List IndexedActorData) : Multiset IndexedActorData) = {v} := by simp
    rw [this, add_comm, Multiset.singleton_add]
  | some types =>
    cases hB : getKey types v.type with
    | none =>
      simp only [hA, Option.getD_some, hB, Option.getD_none, List.nil_append]
      have hInner : flatTypes (setKey types v.type [v]) = flatTypes types ++ [v] :=
        setKey_flat_none (fun b : List IndexedActorData => b) types v.type [v] hB
      have hOuter := setKey_flat_some (fun ts => flatTypes ts) acc v.sect
        (setKey types v.type [v]) types hA
      have hOuter2 : (↑(flatGrouped (setKey acc v.sect (setKey types v.type [v]))) : Multiset IndexedActorData)
            + ↑(flatTypes types)
          = ↑(flatGrouped acc) + ↑(flatTypes (setKey types v.type [v])) := hOuter
      rw [hInner, coe_append] at hOuter2
      have hGoal : (↑(flatGrouped (setKey acc v.sect (setKey types v.type [v]))) : Multiset IndexedActorData)
            + ↑(flatTypes types)
          = (v ::ₘ ↑(flatGrouped acc)) + ↑(flatTypes types) := by
        rw [hOuter2]
        simp only [← Multiset.singleton_add]
        abel
      exact add_right_cancel hGoal
    | some bucket =>
      simp only [hA, Option.getD_some, hB]
      have hInner := setKey_flat_some (fun b : List IndexedActorData => b) types v.type
        (bucket ++ [v]) bucket hB
      have hInner2 : (↑(flatTypes (setKey types v.type (bucket ++ [v]))) : Multiset IndexedActorData)
            + ↑bucket
          = ↑(flatTypes types) + (↑bucket + ↑([v] : List IndexedActorData)) := by
        have := hInner
        rw [coe_append] at this
        exact this
      have hOuter := setKey_flat_some (fun ts => flatTypes ts) acc v.sect
        (setKey types v.type (bucket ++ [v])) types hA
      have hOuter2 : (↑(flatGrouped (setKey acc v.sect (setKey types v.type (bucket ++ [v])))) : Multiset IndexedActorData)
            + ↑(flatTypes types)
          = ↑(flatGrouped acc) + ↑(flatTypes (setKey types v.type (bucket ++ [v]))) := hOuter
      have hGoal : (↑(flatGrouped (setKey acc v.sect (setKey types v.type (bucket ++ [v])))) : Multiset IndexedActorData)
            + (↑(flatTypes types) + ↑bucket)
          = (v ::ₘ ↑(flatGrouped acc)) + (↑(flatTypes types) + ↑bucket) := by
        have step1 : (↑(flatGrouped (setKey acc v.sect (setKey types v.type (bucket ++ [v])))) : Multiset IndexedActorData)
              + ↑(flatTypes types) + ↑bucket
            = ↑(flatGrouped acc) + (↑(flatTypes types) + (↑bucket + ↑([v] : List IndexedActorData))) := by
          rw [hOuter2, add_assoc, hInner2]
        simp only [← Multiset.singleton_add] at step1 ⊢
        rw [← add_assoc] at step1
        calc (↑(flatGrouped (setKey acc v.sect (setKey types v.type (bucket ++ [v])))) : Multiset IndexedActorData)
              + (↑(flatTypes types) + ↑bucket)
            = ↑(flatGrouped (setKey acc v.sect (setKey types v.type (bucket ++ [v]))))
              + ↑(flatTypes types) + ↑bucket := by rw [add_assoc]
          _ = ↑(flatGrouped acc) + ↑(flatTypes types) + ↑bucket + ↑([v] : List IndexedActorData) := by
              rw [step1]; abel
          _ = ({v} + ↑(flatGrouped acc)) + (↑(flatTypes types) + ↑bucket) := by
              have : (↑([v] : List IndexedActorData) : Multiset IndexedActorData) = {v} := by simp
              rw [this]; abel
      exact add_right_cancel hGoal

lemma flatGrouped_foldl (sel : List IndexedActorData) :
    ∀ acc : Grouped,
      (↑(flatGrouped (sel.foldl insertGrouped acc)) : Multiset IndexedActorData)
        = ↑(flatGrouped acc) + ↑sel := by
  induction sel with
  | nil => intro acc; simp
  | cons v rest ih =>
    intro acc
    rw [List.foldl_cons, ih (insertGrouped acc v), insertGrouped_flat, coe_cons_mset]
    simp only [← Multiset.singleton_add]
    abel

lemma flatGrouped_groupSelected (sel : List IndexedActorData) :
    (↑(flatGrouped (groupSelected sel)) : Multiset IndexedActorData) = ↑sel := by
  have h := flatGrouped_foldl sel []
  simpa [groupSelected, flatGrouped] using h

lemma flatTypes_mapSort (types : List (String × List IndexedActorData)) :
    (↑(flatTypes (types.map fun p => (p.1, sortByIndex p.2))) : Multiset IndexedActorData)
      = ↑(flatTypes types) := by
  induction types with
  | nil => rfl
  | cons tv rest ih =>
    have hstep : flatTypes ((tv :: rest).map fun p => (p.1, sortByIndex p.2))
        = sortByIndex tv.2 ++ flatTypes (rest.map fun p => (p.1, sortByIndex p.2)) := rfl
    have hstep2 : flatTypes (tv :: rest) = tv.2 ++ flatTypes rest := rfl
    have hsort : (↑(sortByIndex tv.2) : Multiset IndexedActorData) = ↑tv.2 :=
      Multiset.coe_eq_coe.mpr (List.perm_insertionSort _ tv.2)
    rw [hstep, hstep2, coe_append, coe_append, ih, hsort]

lemma flatGrouped_mapSort (g : Grouped) :
    (↑(flatGrouped (g.map fun p => (p.1, p.2.map fun q => (q.1, sortByIndex q.2)))) : Multiset IndexedActorData)
      = ↑(flatGrouped g) := by
  induction g with
  | nil => rfl
  | cons st rest ih =>
    have hstep : flatGrouped ((st :: rest).map fun p => (p.1, p.2.map fun q => (q.1, sortByIndex q.2)))
        = flatTypes (st.2.map fun q => (q.1, sortByIndex q.2))
          ++ flatGrouped (rest.map fun p => (p.1, p.2.map fun q => (q.1, sortByIndex q.2))) := rfl
    have hstep2 : flatGrouped (st :: rest) = flatTypes st.2 ++ flatGrouped rest := rfl
    rw [hstep, hstep2, coe_append, coe_append, ih, flatTypes_mapSort st.2]

/-- The estimated cost of an output entry, which carries the same tokens
and value as the entry it was stripped from. -/
def windowedCost (w : WindowedData) : Nat :=
  match w.tokens with
  | some t => t.length
  | none => heuristic w.value

/-- All output entries of a buildWindow result, in order. -/
def flatWindowed (out : List (String × List (String × List WindowedData))) : List WindowedData :=
  out.flatMap fun st => st.2.flatMap fun tv => tv.2

/-- The total estimated cost of a buildWindow result. -/
def totalWindowCost (out : List (String × List (String × List WindowedData))) : Nat :=
  ((flatWindowed out).map windowedCost).sum

lemma flatTypesW_mapStrip (types : List (String × List IndexedActorData)) :
    (types.map fun p => (p.1, p.2.map strip)).flatMap (fun q => q.2)
      = (flatTypes types).map strip := by
  induction types with
  | nil => rfl
  | cons tv rest ih =>
    have h1 : ((tv :: rest).map fun p => (p.1, p.2.map strip)).flatMap (fun q => q.2)
        = tv.2.map strip ++ (rest.map fun p => (p.1, p.2.map strip)).flatMap (fun q => q.2) := rfl
    have h2 : (flatTypes (tv :: rest)).map strip
        = tv.2.map strip ++ (flatTypes rest).map strip := by
      have hx : flatTypes (tv :: rest) = tv.2 ++ flatTypes rest := rfl
      rw [hx, List.map_append]
    rw [h1, h2, ih]

lemma flatWindowed_mapStrip (g : Grouped) :
    flatWindowed (g.map fun p => (p.1, p.2.map fun q => (q.1, q.2.map strip)))
      = (flatGrouped g).map strip := by
  induction g with
  | nil => rfl
  | cons st rest ih =>
    have h1 : flatWindowed ((st :: rest).map fun p => (p.1, p.2.map fun q => (q.1, q.2.map strip)))
        = (st.2.map fun q => (q.1, q.2.map strip)).flatMap (fun q => q.2)
          ++ flatWindowed (rest.map fun p => (p.1, p.2.map fun q => (q.1, q.2.map strip))) := rfl
    have h2 : (flatGrouped (st :: rest)).map strip
        = (flatTypes st.2).map strip ++ (flatGrouped rest).map strip := by
      have hx : flatGrouped (st :: rest) = flatTypes st.2 ++ flatGrouped rest := rfl
      rw [hx, List.map_append]
    rw [h1, h2, ih, flatTypesW_mapStrip st.2]

lemma totalWindowCost_eq_sum (input : EntryCollection) (b : Int) :
    (totalWindowCost (buildWindow input b) : Int)
      = ((selectEntries (sortEntries (flattenEntries input)) 0 b).map
          (fun v => (entryCost v : Int))).sum := by
  unfold totalWindowCost
  have hbw : buildWindow input b
      = (buildWindowIndexed input b).map fun st =>
          (st.1, st.2.map fun tv => (tv.1, tv.2.map strip)) := rfl
  rw [hbw, flatWindowed_mapStrip, List.map_map]
  have hcomp : windowedCost ∘ strip = entryCost := funext fun v => rfl
  rw [hcomp]
  have hmset : (↑(flatGrouped (buildWindowIndexed input b)) : Multiset IndexedActorData)
      = ↑(selectEntries (sortEntries (flattenEntries input)) 0 b) := by
    have hbwi : buildWindowIndexed input b
        = (groupSelected (selectEntries (sortEntries (flattenEntries input)) 0 b)).map
            fun st => (st.1, st.2.map fun tv => (tv.1, sortByIndex tv.2)) := rfl
    rw [hbwi, flatGrouped_mapSort, flatGrouped_groupSelected]
  have hsum : ((flatGrouped (buildWindowIndexed input b)).map entryCost).sum
      = ((selectEntries (sortEntries (flattenEntries input)) 0 b).map entryCost).sum := by
    have := congrArg (fun s : Multiset IndexedActorData => (s.map entryCost).sum) hmset
    simpa using this
  rw [hsum, Nat.cast_list_sum, List.map_map]
  rfl

/-- C5: for every entry collection and non-negative budget, the sum of
the estimated costs of all entries returned by buildWindow never exceeds
the budget, and the accepted entries are exactly the greedy prefix of the
sorted sequence, stopping entirely at the first entry that would
overflow. -/
theorem buildWindow_budget_respected (input : EntryCollection) (b : Int) (h : 0 ≤ b) :
    (totalWindowCost (buildWindow input b) : Int) ≤ b ∧
    selectEntries (sortEntries (flattenEntries input)) 0 b
      = greedyWindowPrefix (sortEntries (flattenEntries input)) b := by
  constructor
  · rw [totalWindowCost_eq_sum input b]
    have hs := selectEntries_sum (sortEntries (flattenEntries input)) 0 b h
    omega
  · rw [selectEntries_eq_greedy]
    norm_num

/-- C5 witness: the budget bound and the greedy-prefix equality at a
concrete collection and budget 1, which fits only one of the entries. -/
theorem buildWindow_budget_respected_witness :
    (0 : Int) ≤ 1 ∧
    (totalWindowCost (buildWindow
        [("context", [("t", [positiveCostEntry, positiveCostEntry])])] 1) : Int) ≤ 1 :=
  ⟨by decide,
    (buildWindow_budget_respected
      [("context", [("t", [positiveCostEntry, positiveCostEntry])])] 1 (by decide)).1⟩

/-- The bookkeeping key of a flattened entry: its section, type and
within-bucket index. -/
def entryKey (e : IndexedActorData) : String × String × Nat := (e.sect, e.type, e.index)

/-- Well-formedness that JavaScript guarantees structurally: record keys
are unique, so section names are distinct and type names are distinct
within each section. -/
def wfCollection (input : EntryCollection) : Prop :=
  (input.map Prod.fst).Nodup ∧ ∀ st ∈ input, (st.2.map Prod.fst).Nodup

/-- The flattening of one section of the collection. -/
def flattenSection (s : String) (types : List (String × List ActorData)) :
    List IndexedActorData :=
  types.flatMap fun tv => tv.2.enum.map fun p => mkIndexed p.2 p.1 s tv.1

lemma mem_flattenSection {e : IndexedActorData} {s : String}
    {types : List (String × List ActorData)} (he : e ∈ flattenSection s types) :
    e.sect = s ∧ e.type ∈ types.map Prod.fst := by
  simp only [flattenSection, List.mem_flatMap, List.mem_map] at he
  obtain ⟨tv, htv, p, hp, rfl⟩ := he
  exact ⟨rfl, List.mem_map_of_mem Prod.fst htv⟩

lemma mem_flattenEntries_sect {e : IndexedActorData} {input : EntryCollection}
    (he : e ∈ flattenEntries input) : e.sect ∈ input.map Prod.fst := by
  simp only [flattenEntries, List.mem_flatMap, List.mem_map] at he
  obtain ⟨st, hst, tv, htv, p, hp, rfl⟩ := he
  exact List.mem_map_of_mem Prod.fst hst

lemma bucket_keys_nodup (s t : String) (es : List ActorData) :
    ((es.enum.map fun p => mkIndexed p.2 p.1 s t).map entryKey).Nodup := by
  rw [List.map_map]
  have hcomp : (entryKey ∘ fun p : Nat × ActorData => mkIndexed p.2 p.1 s t)
      = (fun i => (s, t, i)) ∘ Prod.fst := funext fun p => rfl
  rw [hcomp, ← List.map_map]
  refine (List.nodup_enum_map_fst es).map ?_
  intro a b hab
  simpa using hab

lemma section_keys_nodup (s : String) (types : List (String × List ActorData))
    (h : (types.map Prod.fst).Nodup) :
    ((flattenSection s types).map entryKey).Nodup := by
  induction types with
  | nil => simp [flattenSection]
  | cons tv rest ih =>
    have hstep : flattenSection s (tv :: rest)
        = (tv.2.enum.map fun p => mkIndexed p.2 p.1 s tv.1) ++ flattenSection s rest := rfl
    rw [hstep, List.map_append]
    rw [List.map_cons] at h
    have hhead := List.nodup_cons.mp h
    refine List.nodup_append.mpr ⟨bucket_keys_nodup s tv.1 tv.2, ih hhead.2, ?_⟩
    intro k hk1 hk2
    obtain ⟨e, he, rfl⟩ := List.mem_map.mp hk1
    obtain ⟨e2, he2, hke⟩ := List.mem_map.mp hk2
    have h1 : e.type = tv.1 := by
      simp only [List.mem_map] at he
      obtain ⟨p, hp, rfl⟩ := he
      rfl
    have h2 := (mem_flattenSection he2).2
    have h3 : e2.type = e.type := congrArg (fun k => k.2.1) hke
    rw [h3, h1] at h2
    exact hhead.1 h2

lemma flatten_keys_nodup (input : EntryCollection) (h : wfCollection input) :
    ((flattenEntries input).map entryKey).Nodup := by
  obtain ⟨hsec, hts⟩ := h
  induction input with
  | nil => simp [flattenEntries]
  | cons st rest ih =>
    have hstep : flattenEntries (st :: rest)
        = flattenSection st.1 st.2 ++ flattenEntries rest := rfl
    rw [hstep, List.map_append]
    rw [List.map_cons] at hsec
    have hhead := List.nodup_cons.mp hsec
    refine List.nodup_append.mpr
      ⟨section_keys_nodup st.1 st.2 (hts st (List.mem_cons_self st rest)),
        ih hhead.2 (fun st2 h2 => hts st2 (List.mem_cons_of_mem st h2)), ?_⟩
    intro k hk1 hk2
    obtain ⟨e, he, rfl⟩ := List.mem_map.mp hk1
    obtain ⟨e2, he2, hke⟩ := List.mem_map.mp hk2
    have h1 : e.sect = st.1 := (mem_flattenSection he).1
    have h2 := mem_flattenEntries_sect he2
    have h3 : e2.sect = e.sect := congrArg (fun k => k.1) hke
    rw [h3, h1] at h2
    exact hhead.1 h2

lemma selectEntries_sublist (l : List IndexedActorData) :
    ∀ c m : Int, (selectEntries l c m).Sublist l := by
  induction l with
  | nil => intro c m; simp [selectEntries]
  | cons v rest ih =>
    intro c m
    show (if c + (entryCost v : Int) > m then []
        else v :: selectEntries rest (c + (entryCost v : Int)) m).Sublist (v :: rest)
    by_cases hc : c + (entryCost v : Int) > m
    · rw [if_pos hc]; exact List.nil_sublist _
    · rw [if_neg hc]; exact (ih (c + (entryCost v : Int)) m).cons₂ v

/-- Every entry sits in the bucket named by its own section and type. -/
def GroupedKeysOk (g : Grouped) : Prop :=
  ∀ st ∈ g, ∀ tv ∈ st.2, ∀ e ∈ tv.2, e.sect = st.1 ∧ e.type = tv.1

lemma mem_setKey {β : Type} {m : List (String × β)} {k : String} {x : String × β} {v : β}
    (h : x ∈ setKey m k v) : x = (k, v) ∨ x ∈ m := by
  induction m with
  | nil => simpa [setKey] using h
  | cons p rest ih =>
    by_cases hpk : p.1 == k
    · simp only [setKey, if_pos hpk] at h
      rcases List.mem_cons.mp h with h1 | h2
      · exact Or.inl h1
      · exact Or.inr (List.mem_cons_of_mem p h2)
    · simp only [setKey, if_neg hpk] at h
      rcases List.mem_cons.mp h with h1 | h2
      · exact Or.inr (h1 ▸ List.mem_cons_self p rest)
      · rcases ih h2 with h3 | h4
        · exact Or.inl h3
        · exact Or.inr (List.mem_cons_of_mem p h4)

lemma insertGrouped_eq_nn {g : Grouped} {v : IndexedActorData}
    (hA : getKey g v.sect = none) :
    insertGrouped g v = setKey g v.sect [(v.type, [v])] := by
  unfold insertGrouped
  rw [hA]
  rfl

lemma insertGrouped_eq_sn {g : Grouped} {v : IndexedActorData}
    {types : List (String × List IndexedActorData)}
    (hA : getKey g v.sect = some types) (hB : getKey types v.type = none) :
    insertGrouped g v = setKey g v.sect (setKey types v.type [v]) := by
  unfold insertGrouped
  rw [hA]
  simp only [Option.getD_some]
  rw [hB]
  rfl

lemma insertGrouped_eq_ss {g : Grouped} {v : IndexedActorData}
    {types : List (String × List IndexedActorData)} {bucket : List IndexedActorData}
    (hA : getKey g v.sect = some types) (hB : getKey types v.type = some bucket) :
    insertGrouped g v = setKey g v.sect (setKey types v.type (bucket ++ [v])) := by
  unfold insertGrouped
  rw [hA]
  simp only [Option.getD_some]
  rw [hB]
  rfl

lemma insertGrouped_keysOk {g : Grouped} (hg : GroupedKeysOk g) (v : IndexedActorData) :
    GroupedKeysOk (insertGrouped g v) := by
  intro st hst tv htv e he
  cases hA : getKey g v.sect with
  | none =>
    rw [insertGrouped_eq_nn hA] at hst
    rcases mem_setKey hst with hnew | hold
    · subst hnew
      have htv2 : tv = (v.type, [v]) := by simpa using htv
      subst htv2
      have hev : e = v := by simpa using he
      subst hev
      exact ⟨rfl, rfl⟩
    · exact hg st hold tv htv e he
  | some types =>
    cases hB : getKey types v.type with
    | none =>
      rw [insertGrouped_eq_sn hA hB] at hst
      rcases mem_setKey hst with hnew | hold
      · subst hnew
        rcases mem_setKey htv with hnew2 | hold2
        · subst hnew2
          have hev : e = v := by simpa using he
          subst hev
          exact ⟨rfl, rfl⟩
        · exact hg (v.sect, types) (getKey_mem hA) tv hold2 e he
      · exact hg st hold tv htv e he
    | some bucket =>
      rw [insertGrouped_eq_ss hA hB] at hst
      rcases mem_setKey hst with hnew | hold
      · subst hnew
        rcases mem_setKey htv with hnew2 | hold2
        · subst hnew2
          rcases List.mem_append.mp he with hbucket | hv
          · exact hg (v.sect, types) (getKey_mem hA) (v.type, bucket) (getKey_mem hB) e hbucket
          · have hev : e = v := by simpa using hv
            subst hev
            exact ⟨rfl, rfl⟩
        · exact hg (v.sect, types) (getKey_mem hA) tv hold2 e he
      · exact hg st hold tv htv e he

lemma groupSelected_keysOk (sel : List IndexedActorData) :
    GroupedKeysOk (groupSelected sel) := by
  suffices hacc : ∀ (l : List IndexedActorData) (acc : Grouped),
      GroupedKeysOk acc → GroupedKeysOk (l.foldl insertGrouped acc) by
    refine hacc sel [] ?_
    intro st hst
    exact absurd hst (List.not_mem_nil st)
  intro l
  induction l with
  | nil => intro acc h; exact h
  | cons v rest ih => intro acc h; exact ih _ (insertGrouped_keysOk h v)

lemma bucket_sublist_flatGrouped {g : Grouped} {st : String × List (String × List IndexedActorData)}
    (hst : st ∈ g) {tv : String × List IndexedActorData} (htv : tv ∈ st.2) :
    tv.2.Sublist (flatGrouped g) := by
  have h1 : tv.2.Sublist (flatTypes st.2) := by
    have hmem : tv.2 ∈ st.2.map (fun q => q.2) := List.mem_map_of_mem _ htv
    show tv.2.Sublist (st.2.flatMap fun q => q.2)
    rw [List.flatMap_def]
    exact List.sublist_flatten_of_mem hmem
  have h2 : (flatTypes st.2).Sublist (flatGrouped g) := by
    have hmem : flatTypes st.2 ∈ g.map (fun p => flatTypes p.2) := List.mem_map_of_mem _ hst
    show (flatTypes st.2).Sublist (g.flatMap fun p => flatTypes p.2)
    rw [List.flatMap_def]
    exact List.sublist_flatten_of_mem hmem
  exact h1.trans h2

/-- C6: after buildWindow, every (section, type) bucket of the output
lists its retained entries with strictly increasing original indices,
i.e. in the original bucket order, even though selection operated in
keep/priority order internally; buildWindow itself is the bookkeeping
strip of the indexed pipeline, bucket by bucket. -/
theorem buildWindow_bucket_order (input : EntryCollection) (b : Int) (h : wfCollection input) :
    buildWindow input b = ((buildWindowIndexed input b).map
        fun p => (p.1, p.2.map fun q => (q.1, q.2.map strip))) ∧
    ∀ st ∈ buildWindowIndexed input b, ∀ tv ∈ st.2,
      (tv.2.map fun e => e.index).Pairwise (· < ·) := by
  refine ⟨rfl, ?_⟩
  intro st hst tv htv
  have hbwi : buildWindowIndexed input b
      = (groupSelected (selectEntries (sortEntries (flattenEntries input)) 0 b)).map
          fun p => (p.1, p.2.map fun q => (q.1, sortByIndex q.2)) := rfl
  rw [hbwi] at hst
  obtain ⟨p, hp, rfl⟩ := List.mem_map.mp hst
  obtain ⟨q, hq, rfl⟩ := List.mem_map.mp htv
  have hkeys := groupSelected_keysOk (selectEntries (sortEntries (flattenEntries input)) 0 b) p hp q hq
  have hflatnodup : ((flattenEntries input).map entryKey).Nodup := flatten_keys_nodup input h
  have hsortnodup : ((sortEntries (flattenEntries input)).map entryKey).Nodup := by
    have hperm : (sortEntries (flattenEntries input)).Perm (flattenEntries input) :=
      List.perm_insertionSort _ _
    exact (hperm.map entryKey).nodup_iff.mpr hflatnodup
  have hselnodup : ((selectEntries (sortEntries (flattenEntries input)) 0 b).map entryKey).Nodup :=
    hsortnodup.sublist ((selectEntries_sublist (sortEntries (flattenEntries input)) 0 b).map entryKey)
  have hbsub : q.2.Sublist (flatGrouped (groupSelected
      (selectEntries (sortEntries (flattenEntries input)) 0 b))) :=
    bucket_sublist_flatGrouped hp hq
  have hbnodup : (q.2.map entryKey).Nodup := by
    have h1 : (↑q.2 : Multiset IndexedActorData)
        ≤ ↑(selectEntries (sortEntries (flattenEntries input)) 0 b) := by
      have h2 := Multiset.coe_le.mpr hbsub.subperm
      rwa [flatGrouped_groupSelected] at h2
    have hle : (↑(q.2.map entryKey) : Multiset (String × String × Nat))
        ≤ ↑((selectEntries (sortEntries (flattenEntries input)) 0 b).map entryKey) := by
      have h3 := Multiset.map_le_map (f := entryKey) h1
      simpa using h3
    exact Multiset.coe_nodup.mp
      (Multiset.nodup_of_le hle (Multiset.coe_nodup.mpr hselnodup))
  have hidx : q.2.Pairwise fun a c => a.index ≠ c.index := by
    have hpw : q.2.Pairwise fun a c => entryKey a ≠ entryKey c := List.pairwise_map.mp hbnodup
    refine hpw.imp_of_mem ?_
    intro a c ha hc hne hieq
    obtain ⟨has, hat⟩ := hkeys a ha
    obtain ⟨hcs, hct⟩ := hkeys c hc
    apply hne
    unfold entryKey
    rw [has, hat, hcs, hct, hieq]
  have hperm2 : (sortByIndex q.2).Perm q.2 := List.perm_insertionSort _ _
  have hidx2 : (sortByIndex q.2).Pairwise fun a c => a.index ≠ c.index :=
    (hperm2.pairwise_iff fun hxy => Ne.symm hxy).mpr hidx
  have hsorted : (sortByIndex q.2).Pairwise fun a c => a.index ≤ c.index := by
    haveI : IsTotal IndexedActorData fun a c => a.index ≤ c.index := ⟨fun a c => Nat.le_total _ _⟩
    haveI : IsTrans IndexedActorData fun a c => a.index ≤ c.index := ⟨fun a c d => Nat.le_trans⟩
    exact List.sorted_insertionSort _ q.2
  rw [List.pairwise_map]
  exact (hsorted.and hidx2).imp fun hab => lt_of_le_of_ne hab.1 hab.2

/-- A first witness entry for the bucket-order theorem. -/
def wEntryA : ActorData := { name := "wa", type := "orig", value := "va", tokens := some [1] }

/-- A second witness entry for the bucket-order theorem. -/
def wEntryB : ActorData := { name := "wb", type := "orig", value := "vb", tokens := some [1] }

/-- A concrete well-formed collection with one bucket of two entries. -/
def exhibitCollection : EntryCollection := [("s", [("t", [wEntryA, wEntryB])])]

/-- C6 witness: the bucket-order theorem applied to the concrete
collection at budget 10; the retained bucket lists indices 0 then 1. -/
theorem buildWindow_bucket_order_witness :
    wfCollection exhibitCollection ∧
    (([mkIndexed wEntryA 0 "s" "t", mkIndexed wEntryB 1 "s" "t"].map
        fun e => e.index).Pairwise (· < ·)) :=
  ⟨⟨by decide, by decide⟩,
    (buildWindow_bucket_order exhibitCollection 10 ⟨by decide, by decide⟩).2
      ("s", [("t", [mkIndexed wEntryA 0 "s" "t", mkIndexed wEntryB 1 "s" "t"])])
      (by decide)
      ("t", [mkIndexed wEntryA 0 "s" "t", mkIndexed wEntryB 1 "s" "t"])
      (by decide)⟩

/-- The result of the generateText collaborator (GenerateTextResult in
Conversation.ts). -/
structure GenerateTextResult where
  text : String
  tokens : Option (List Int) := none
  embeddings : Option (List Int) := none
deriving Repr, DecidableEq

/-- buildMessage from Conversation.ts (lines 502-539), with the token and
embedding arguments already resolved to an array value or absence (the
boolean forms delegate to the optional generator collaborators, modelled
as absent). An ephemeral message gets no token or embedding annotation,
the stored ephemeral flag is the boolean test ephemeral === true, and an
omitted feedback defaults to (0, 0). -/
def buildMessage (speaker text : String) (tokens embeddings : Option (List Int))
    (ephemeral : Bool) (feedback : Option (Int × Int)) : Message :=
  { actor := speaker, text := text,
    tokens := if ephemeral then none else tokens,
    embeddings := if ephemeral then none else embeddings,
    ephemeral := some ephemeral,
    feedback := feedback.getD (0, 0) }

/-- The history effect of query (Conversation.ts lines 295-362) with a
boolean store argument: the query message is built (ephemeral exactly
when store is false) and pushed, then generateText runs. A throwing
generateText (modelled as none) exits the function by exception with no
cleanup, leaving the pushed message in place; on success cleanEphemeral
runs when the query was ephemeral, and the answer is pushed when store
is true. The rendered prompt and the returned TurnResponse do not touch
the history and are omitted. -/
def queryHistory (history : List Message) (speaker answerer queryText : String)
    (store : Bool) (genResult : Option GenerateTextResult) : List Message :=
  let ephemeral := !store
  let message := buildMessage speaker queryText none none ephemeral none
  let history1 := history ++ [message]
  match genResult with
  | none => history1
  | some result =>
    let history2 := if ephemeral then cleanEphemeral history1 else history1
    if store then
      history2 ++ [buildMessage answerer result.text result.tokens result.embeddings false none]
    else history2

/-- C7 counterexample: a query with store = false whose generateText
throws leaves the conversation history changed, with the ephemeral query
message still in it, so the cleanup does not run on the failure path. -/
theorem query_failure_counterexample :
    queryHistory [] "alice" "bob" "q" false none ≠ ([] : List Message) := by decide

lemma eraseIdx_append_singleton {γ : Type} (l : List γ) (x : γ) :
    (l ++ [x]).eraseIdx l.length = l := by
  induction l with
  | nil => rfl
  | cons a t ih =>
    show a :: (t ++ [x]).eraseIdx t.length = a :: t
    rw [ih]

lemma cleanEphemeral_append_single (history : List Message) (m : Message)
    (h : ∀ x ∈ history, x.ephemeral.getD false = false)
    (hm : m.ephemeral.getD false = true) :
    cleanEphemeral (history ++ [m]) = history := by
  have hidx : ephemeralIndexes (history ++ [m]) = [history.length] := by
    unfold ephemeralIndexes
    rw [List.enum_append]
    have h1 : List.enumFrom history.length [m] = [(history.length, m)] := rfl
    rw [h1, List.filter_append]
    have h2 : history.enum.filter (fun p => p.2.ephemeral.getD false) = [] := by
      rw [List.filter_eq_nil_iff]
      intro p hp
      have hp2 : p.2 ∈ history := by
        have := List.mem_map_of_mem Prod.snd hp
        rwa [List.enum_map_snd] at this
      simp [h p.2 hp2]
    have h3 : List.filter (fun p => p.2.ephemeral.getD false) [(history.length, m)]
        = [(history.length, m)] := by
      simp [List.filter, hm]
    rw [h2, h3]
    rfl
  unfold cleanEphemeral
  rw [hidx]
  show (history ++ [m]).eraseIdx history.length = history
  exact eraseIdx_append_singleton history m

/-- C7 (amended): when generateText throws inside a store = false query,
the cleanup is skipped: the history afterwards is the old history with
the ephemeral query message appended, not the old history itself. If the
prior history holds no ephemeral messages, a later cleanEphemeral (as run
by the next successful turn) removes the pending query and restores the
original history. -/
theorem query_failure_leaves_ephemeral (history : List Message)
    (speaker answerer queryText : String)
    (h : ∀ m ∈ history, m.ephemeral.getD false = false) :
    queryHistory history speaker answerer queryText false none
      = history ++ [buildMessage speaker queryText none none true none] ∧
    cleanEphemeral (queryHistory history speaker answerer queryText false none) = history := by
  constructor
  · rfl
  · exact cleanEphemeral_append_single history _ h rfl

/-- C7 witness: the amended claim at a concrete one-message history. -/
theorem query_failure_leaves_ephemeral_witness :
    cleanEphemeral (queryHistory [durableMessage "X"] "alice" "bob" "q" false none)
      = [durableMessage "X"] :=
  (query_failure_leaves_ephemeral [durableMessage "X"] "alice" "bob" "q" (by decide)).2

/-- A JavaScript array in the heap model of buildWindow: an input array of
raw entries, an array of indexed entries (sortedValues or an
orderedValues bucket), or an output array of stripped entries. -/
inductive JSArray where
  | plain : List ActorData → JSArray
  | indexed : List IndexedActorData → JSArray
  | stripped : List WindowedData → JSArray
deriving Repr, DecidableEq

/-- The store of allocated arrays; an array id is its position, and
allocation appends. -/
abbrev Store := List JSArray

/-- The entry collection as buildWindow receives it in the heap model:
sections and types name the ids of the shared, mutable input arrays. -/
abbrev InputRefs := List (String × List (String × Nat))

/-- Read an input array (empty for a dangling or wrongly-typed id). -/
def readPlain (st : Store) (id : Nat) : List ActorData :=
  match st.get? id with
  | some (JSArray.plain l) => l
  | _ => []

/-- Read an indexed array (empty for a dangling or wrongly-typed id). -/
def readIndexed (st : Store) (id : Nat) : List IndexedActorData :=
  match st.get? id with
  | some (JSArray.indexed l) => l
  | _ => []

/-- Allocate a fresh array, returning the new store and the new id. -/
def alloc (st : Store) (a : JSArray) : Store × Nat := (st ++ [a], st.length)

/-- Overwrite the array at an id, the model of an in-place mutation such
as Array.prototype.sort or push. -/
def writeArr (st : Store) (id : Nat) (a : JSArray) : Store := st.set id a

/-- The flattening pass reading the input arrays out of the store; each
entry is copied into a fresh object by the spread, so the flattened list
shares no structure with the input arrays. -/
def flattenRefs (st : Store) (input : InputRefs) : List IndexedActorData :=
  input.flatMap fun sp =>
    sp.2.flatMap fun tp =>
      (readPlain st tp.2).enum.map fun p => mkIndexed p.2 p.1 sp.1 tp.1

/-- One step of the grouping loop in the heap model: push the accepted
entry onto its bucket array, allocating the bucket (and registering it
under its section and type) on first use. -/
def pushGroupedRef (acc : Store × InputRefs) (v : IndexedActorData) : Store × InputRefs :=
  match getKey ((getKey acc.2 v.sect).getD []) v.type with
  | some id =>
    (writeArr acc.1 id (JSArray.indexed (readIndexed acc.1 id ++ [v])), acc.2)
  | none =>
    ((alloc acc.1 (JSArray.indexed [v])).1,
      setKey acc.2 v.sect
        (setKey ((getKey acc.2 v.sect).getD []) v.type (alloc acc.1 (JSArray.indexed [v])).2))

/-- The output pass over one section: sort each bucket array in place
(Array.prototype.sort mutates and returns its receiver), then map the
sorted bucket to a fresh stripped output array. -/
def finalizeTypes (st : Store) : List (String × Nat) → Store × List (String × Nat)
  | [] => (st, [])
  | tp :: rest =>
    let sorted := sortByIndex (readIndexed st tp.2)
    let st1 := writeArr st tp.2 (JSArray.indexed sorted)
    let stId := alloc st1 (JSArray.stripped (sorted.map strip))
    let r := finalizeTypes stId.1 rest
    (r.1, (tp.1, stId.2) :: r.2)

/-- The output pass over all sections. -/
def finalizeSections (st : Store) : InputRefs → Store × InputRefs
  | [] => (st, [])
  | sp :: rest =>
    let rT := finalizeTypes st sp.2
    let rS := finalizeSections rT.1 rest
    (rS.1, (sp.1, rT.2) :: rS.2)

/-- buildWindow in the heap model (util.ts lines 112-178): flatten by
reading the input arrays, allocate the sortedValues array and sort it in
place, run the selection loop over it, push the accepted entries onto
freshly allocated bucket arrays, then sort each bucket in place and
allocate the stripped output arrays. Every write targets an array
allocated inside the call. -/
def buildWindowHeap (st : Store) (input : InputRefs) (maxTokens : Int) : Store × InputRefs :=
  let flat := flattenRefs st input
  let stId := alloc st (JSArray.indexed flat)
  let st1 := writeArr stId.1 stId.2 (JSArray.indexed (sortEntries flat))
  let selected := selectEntries (readIndexed st1 stId.2) 0 maxTokens
  let grouped := selected.foldl pushGroupedRef (st1, [])
  finalizeSections grouped.1 grouped.2

/-- The store is unchanged at every id below n. -/
def preservedBelow (st st2 : Store) (n : Nat) : Prop :=
  ∀ id, id < n → st2.get? id = st.get? id

/-- All bucket ids registered in the grouping refs are at or above the
base, i.e. were allocated during the call. -/
def RefsOk (base : Nat) (refs : InputRefs) : Prop :=
  ∀ sp ∈ refs, ∀ tp ∈ sp.2, base ≤ tp.2

lemma writeArr_get?_lt (st : Store) (id j : Nat) (a : JSArray) (h : j ≠ id) :
    (writeArr st id a).get? j = st.get? j := by
  unfold writeArr
  simp [List.get?_eq_getElem?, List.getElem?_set_ne (Ne.symm h)]

lemma append_get?_lt (st : Store) (a : JSArray) (j : Nat) (h : j < st.length) :
    (st ++ [a]).get? j = st.get? j := by
  simp only [List.get?_eq_getElem?]
  rw [List.getElem?_append_left h]

lemma preservedBelow_refl (st : Store) (n : Nat) : preservedBelow st st n :=
  fun _ _ => rfl

lemma preservedBelow_trans {st st2 st3 : Store} {n : Nat}
    (h1 : preservedBelow st st2 n) (h2 : preservedBelow st2 st3 n) :
    preservedBelow st st3 n :=
  fun id hid => (h2 id hid).trans (h1 id hid)

lemma pushGroupedRef_inv (st0 : Store) (acc : Store × InputRefs) (v : IndexedActorData)
    (hpres : preservedBelow st0 acc.1 st0.length)
    (hrefs : RefsOk st0.length acc.2)
    (hlen : st0.length ≤ acc.1.length) :
    preservedBelow st0 (pushGroupedRef acc v).1 st0.length
    ∧ RefsOk st0.length (pushGroupedRef acc v).2
    ∧ st0.length ≤ (pushGroupedRef acc v).1.length := by
  unfold pushGroupedRef
  cases hB : getKey ((getKey acc.2 v.sect).getD []) v.type with
  | some id =>
    have hid : st0.length ≤ id := by
      cases hA : getKey acc.2 v.sect with
      | none =>
        rw [hA] at hB
        simp [getKey] at hB
      | some types =>
        rw [hA] at hB
        simp only [Option.getD_some] at hB
        exact hrefs (v.sect, types) (getKey_mem hA) (v.type, id) (getKey_mem hB)
    refine ⟨?_, hrefs, ?_⟩
    · intro j hj
      rw [writeArr_get?_lt acc.1 id j _ (by omega)]
      exact hpres j hj
    · show st0.length ≤ (acc.1.set id _).length
      simpa using hlen
  | none =>
    refine ⟨?_, ?_, ?_⟩
    · intro j hj
      show ((acc.1 ++ [JSArray.indexed [v]]).get? j) = _
      rw [append_get?_lt acc.1 _ j (by omega)]
      exact hpres j hj
    · intro sp hsp tp htp
      rcases mem_setKey hsp with h1 | h2
      · rw [h1] at htp
        rcases mem_setKey htp with h3 | h4
        · rw [h3]
          show st0.length ≤ acc.1.length
          exact hlen
        · cases hA : getKey acc.2 v.sect with
          | none =>
            rw [hA] at h4
            simp only [Option.getD_none] at h4
            exact absurd h4 (List.not_mem_nil tp)
          | some types =>
            rw [hA] at h4
            simp only [Option.getD_some] at h4
            exact hrefs (v.sect, types) (getKey_mem hA) tp h4
      · exact hrefs sp h2 tp htp
    · show st0.length ≤ (acc.1 ++ [JSArray.indexed [v]]).length
      rw [List.length_append]
      omega

lemma foldl_pushGroupedRef_inv (st0 : Store) (sel : List IndexedActorData) :
    ∀ acc : Store × InputRefs,
      preservedBelow st0 acc.1 st0.length → RefsOk st0.length acc.2 →
      st0.length ≤ acc.1.length →
      preservedBelow st0 (sel.foldl pushGroupedRef acc).1 st0.length
      ∧ RefsOk st0.length (sel.foldl pushGroupedRef acc).2
      ∧ st0.length ≤ (sel.foldl pushGroupedRef acc).1.length := by
  induction sel with
  | nil => intro acc h1 h2 h3; exact ⟨h1, h2, h3⟩
  | cons v rest ih =>
    intro acc h1 h2 h3
    have hstep := pushGroupedRef_inv st0 acc v h1 h2 h3
    exact ih (pushGroupedRef acc v) hstep.1 hstep.2.1 hstep.2.2

lemma finalizeTypes_inv (st0 : Store) :
    ∀ (types : List (String × Nat)) (st : Store),
      preservedBelow st0 st st0.length → st0.length ≤ st.length →
      (∀ tp ∈ types, st0.length ≤ tp.2) →
      preservedBelow st0 (finalizeTypes st types).1 st0.length
      ∧ st0.length ≤ (finalizeTypes st types).1.length := by
  intro types
  induction types with
  | nil => intro st h1 h2 _; exact ⟨h1, h2⟩
  | cons tp rest ih =>
    intro st h1 h2 h3
    have hid := h3 tp (List.mem_cons_self tp rest)
    simp only [finalizeTypes]
    have hw : preservedBelow st0
        (writeArr st tp.2 (JSArray.indexed (sortByIndex (readIndexed st tp.2)))) st0.length := by
      intro j hj
      rw [writeArr_get?_lt st tp.2 j _ (by omega)]
      exact h1 j hj
    have hwl : (writeArr st tp.2 (JSArray.indexed (sortByIndex (readIndexed st tp.2)))).length
        = st.length := by
      unfold writeArr
      simp
    have ha : preservedBelow st0
        (writeArr st tp.2 (JSArray.indexed (sortByIndex (readIndexed st tp.2)))
          ++ [JSArray.stripped ((sortByIndex (readIndexed st tp.2)).map strip)]) st0.length := by
      intro j hj
      rw [append_get?_lt _ _ j (by omega)]
      exact hw j hj
    have hal : st0.length ≤
        (writeArr st tp.2 (JSArray.indexed (sortByIndex (readIndexed st tp.2)))
          ++ [JSArray.stripped ((sortByIndex (readIndexed st tp.2)).map strip)]).length := by
      rw [List.length_append, hwl]
      omega
    exact ih _ ha hal (fun q hq => h3 q (List.mem_cons_of_mem tp hq))

lemma finalizeSections_inv (st0 : Store) :
    ∀ (refs : InputRefs) (st : Store),
      preservedBelow st0 st st0.length → st0.length ≤ st.length →
      RefsOk st0.length refs →
      preservedBelow st0 (finalizeSections st refs).1 st0.length := by
  intro refs
  induction refs with
  | nil => intro st h1 _ _; exact h1
  | cons sp rest ih =>
    intro st h1 h2 h3
    simp only [finalizeSections]
    have hT := finalizeTypes_inv st0 sp.2 st h1 h2
      (fun tp htp => h3 sp (List.mem_cons_self sp rest) tp htp)
    exact ih (finalizeTypes st sp.2).1 hT.1 hT.2
      (fun sq hsq tq htq => h3 sq (List.mem_cons_of_mem sp hsq) tq htq)

lemma heap_frame_aux (st : Store) (input : InputRefs) (b : Int) (id : Nat)
    (h : id < st.length) :
    (buildWindowHeap st input b).1.get? id = st.get? id := by
  set stB := (st ++ [JSArray.indexed (flattenRefs st input)]).set st.length
      (JSArray.indexed (sortEntries (flattenRefs st input))) with hstBdef
  set sel := selectEntries (readIndexed stB st.length) 0 b with hseldef
  have hbw : buildWindowHeap st input b
      = finalizeSections (sel.foldl pushGroupedRef (stB, [])).1
          (sel.foldl pushGroupedRef (stB, [])).2 := rfl
  have hpresB : preservedBelow st stB st.length := by
    intro j hj
    have hstep1 : stB.get? j = (st ++ [JSArray.indexed (flattenRefs st input)]).get? j :=
      writeArr_get?_lt _ st.length j _ (by omega)
    rw [hstep1]
    exact append_get?_lt st _ j hj
  have hlenB : st.length ≤ stB.length := by
    rw [hstBdef, List.length_set, List.length_append]
    omega
  have hrefs0 : RefsOk st.length ([] : InputRefs) := by
    intro sp hsp
    exact absurd hsp (List.not_mem_nil sp)
  have hfold := foldl_pushGroupedRef_inv st sel (stB, []) hpresB hrefs0 hlenB
  have hfin := finalizeSections_inv st (sel.foldl pushGroupedRef (stB, [])).2
    (sel.foldl pushGroupedRef (stB, [])).1 hfold.1 hfold.2.2 hfold.2.1
  rw [hbw]
  exact hfin id h

/-- The entry collection denoted by input refs over a store. -/
def readCollection (st : Store) (input : InputRefs) : EntryCollection :=
  input.map fun sp => (sp.1, sp.2.map fun tp => (tp.1, readPlain st tp.2))

/-- Coherence of the heap model with the pure embedding: the flattening
pass over the store is the pure flattening of the collection the refs
denote, so the heap pipeline runs the same sort and selection as
buildWindow. -/
lemma flattenRefs_eq (st : Store) (input : InputRefs) :
    flattenRefs st input = flattenEntries (readCollection st input) := by
  induction input with
  | nil => rfl
  | cons sp rest ih =>
    have h1 : flattenRefs st (sp :: rest)
        = (sp.2.flatMap fun tp =>
            (readPlain st tp.2).enum.map fun p => mkIndexed p.2 p.1 sp.1 tp.1)
          ++ flattenRefs st rest := rfl
    have h2 : flattenEntries (readCollection st (sp :: rest))
        = ((sp.2.map fun tp => (tp.1, readPlain st tp.2)).flatMap fun tv =>
            tv.2.enum.map fun p => mkIndexed p.2 p.1 sp.1 tv.1)
          ++ flattenEntries (readCollection st rest) := rfl
    rw [h1, h2, ih]
    congr 1
    induction sp.2 with
    | nil => rfl
    | cons tp rest2 ih2 =>
      simp only [List.map_cons, List.flatMap_cons]
      rw [ih2]

/-- C10: buildWindow never mutates its input. In the heap model, where
the in-place sorts and pushes of the builder are writes at array ids,
the store is unchanged at every id that existed before the call; in
particular every input (section, type) bucket still holds the same
entries in the same order with unchanged fields afterwards. The builder
works only on the indexed copies it allocated itself. -/
theorem buildWindow_no_input_mutation (st : Store) (input : InputRefs) (b : Int)
    (hvalid : ∀ sp ∈ input, ∀ tp ∈ sp.2, tp.2 < st.length) :
    (∀ id < st.length, (buildWindowHeap st input b).1.get? id = st.get? id) ∧
    ∀ sp ∈ input, ∀ tp ∈ sp.2,
      readPlain (buildWindowHeap st input b).1 tp.2 = readPlain st tp.2 := by
  refine ⟨fun id hid => heap_frame_aux st input b id hid, ?_⟩
  intro sp hsp tp htp
  unfold readPlain
  rw [heap_frame_aux st input b tp.2 (hvalid sp hsp tp htp)]

/-- C10 witness: the frame theorem at a concrete one-array store holding
the single input bucket, read back unchanged after the call. -/
theorem buildWindow_no_input_mutation_witness :
    (∀ sp ∈ [("s", [("t", 0)])], ∀ tp ∈ sp.2,
        tp.2 < ([JSArray.plain [wEntryA]] : Store).length) ∧
    readPlain (buildWindowHeap [JSArray.plain [wEntryA]] [("s", [("t", 0)])] 10).1 0
      = readPlain [JSArray.plain [wEntryA]] 0 :=
  ⟨by decide,
    (buildWindow_no_input_mutation [JSArray.plain [wEntryA]] [("s", [("t", 0)])] 10
        (by decide)).2
      ("s", [("t", 0)]) (by decide) ("t", 0) (by decide)⟩
